import Mathlib

/-!
# Verification of the GUICalcRust expression engine

Shallow embedding of `src/calculator.rs` (the whole computational core of the
repository): the lexer `Calculator::parse`, the shunting-yard converter
`Calculator::expression`, and the stack evaluator `Calculator::evaluate`.

Numeric model: the Rust code computes on `f64`.  Here numbers are modelled by
`ℚ`, which agrees exactly with `f64` on every computation the claims touch
(small integer arithmetic and zero tests); `f64` rounding is not modelled.
The transcendental `f64` operations (`sin`, `cos`, `tan`, `sqrt`, `cbrt`,
`ln`, `log10`, `powf`) and the constants `PI`/`E` have no exact rational
meaning, so the evaluator is parametrised over an arbitrary interpretation
`FloatFns` of them; every theorem about the evaluator is stated for all
interpretations (adding, where a claim needs it, the concrete facts about
Rust's `powf` the claim relies on, e.g. `powf 2 3 = 8`).

The lexer is embedded with an explicit fuel argument (`parseAuxN`) so that the
whole development is structurally recursive and kernel-computable; `parse`
supplies fuel equal to the input length, and every recursive call consumes at
least one input character per unit of fuel, so the fuel never runs out
(`parseAuxN_fuel` below proves the fuel argument irrelevant whenever it is at
least the input length).
-/

namespace GUICalc

/-- `enum Operator` of src/calculator.rs. -/
inductive Operator where
  | Add | Sub | Mul | Div | Pow | Mod
deriving DecidableEq

/-- `enum Function` of src/calculator.rs. -/
inductive Function where
  | Sin | Cos | Tan | Sqrt | Cbrt | Log | Log10 | Abs | Floor | Ceil | Round
deriving DecidableEq

/-- `enum Constant` of src/calculator.rs. -/
inductive Constant where
  | Pi | E
deriving DecidableEq

/-- `enum Error` of src/calculator.rs. -/
inductive Error where
  | BadToken (c : Char)
  | MismatchedParens
  | InvalidNumber (s : String)
  | DivisionByZero
  | InvalidOperation (s : String)
  | UnknownFunction (s : String)
deriving DecidableEq

/-- `enum Token` of src/calculator.rs; `Number` carries `f64`, modelled by `ℚ`. -/
inductive Token where
  | Number (q : ℚ)
  | Op (op : Operator)
  | Bracket (c : Char)
  | Function (f : Function)
  | Constant (c : Constant)
deriving DecidableEq

instance {ε α : Type} [DecidableEq ε] [DecidableEq α] : DecidableEq (Except ε α) :=
  fun a b =>
    match a, b with
    | .error e, .error f =>
      if h : e = f then .isTrue (by rw [h]) else .isFalse (by simp [h])
    | .ok x, .ok y =>
      if h : x = y then .isTrue (by rw [h]) else .isFalse (by simp [h])
    | .error _, .ok _ => .isFalse (by simp)
    | .ok _, .error _ => .isFalse (by simp)

/-- `Operator::precedence` (src/calculator.rs lines 53-61); `u8`, modelled by `ℕ`
(the values 1, 2, 3 are nowhere near overflow). -/
def Operator.precedence : Operator → ℕ
  | .Add | .Sub => 1
  | .Mul | .Div | .Mod => 2
  | .Pow => 3

/-! ## Lexer: `Calculator::parse` (src/calculator.rs lines 66-215) -/

/-- Numeric value of a run of decimal digits (most significant first). -/
def natOfDigits (cs : List Char) : ℕ :=
  cs.foldl (fun n c => 10 * n + (c.toNat - '0'.toNat)) 0

/-- Split a character list at every occurrence of `sep` (occurrences deleted);
used to model the grammar of Rust's `str::parse::<f64>`. -/
def splitOnChar (sep : Char) : List Char → List (List Char)
  | [] => [[]]
  | c :: rest =>
    let r := splitOnChar sep rest
    if c = sep then [] :: r
    else
      match r with
      | h :: t => (c :: h) :: t
      | [] => [[c]]

/-- Mantissa part of a float literal: digits with at most one decimal point and
at least one digit in total, exact rational value. -/
def parseMantissa (cs : List Char) : Option ℚ :=
  match splitOnChar '.' cs with
  | [ip] =>
    if ip ≠ [] ∧ ip.all Char.isDigit then some ((natOfDigits ip : ℚ)) else none
  | [ip, fp] =>
    if (ip ≠ [] ∨ fp ≠ []) ∧ ip.all Char.isDigit ∧ fp.all Char.isDigit then
      some ((natOfDigits ip : ℚ) + (natOfDigits fp : ℚ) / 10 ^ fp.length)
    else none
  | _ => none

/-- Models Rust std's `str::parse::<f64>` on the strings the number scanner can
produce (digits, dots, `e`, and a sign right after the `e`; the input is
already lowercased, so no `E` occurs): mantissa, optionally `e` and a signed
decimal exponent.  The result is the exact decimal value as a rational; IEEE
rounding to the nearest `f64` (and overflow of huge exponents to infinity) is
not modelled — no claim depends on it. -/
def parseF64 (cs : List Char) : Option ℚ :=
  match splitOnChar 'e' cs with
  | [m] => parseMantissa m
  | [m, ex] =>
    match parseMantissa m with
    | none => none
    | some mv =>
      let se : ℤ × List Char :=
        match ex with
        | '+' :: t => (1, t)
        | '-' :: t => (-1, t)
        | t => (1, t)
      if se.2 ≠ [] ∧ se.2.all Char.isDigit then
        some (mv * 10 ^ (se.1 * (natOfDigits se.2 : ℤ)))
      else none
  | _ => none

/-- The number scanner of the lexer (src/calculator.rs lines 76-89): after the
first digit/dot, greedily consume digits, dots and `e`, and a `+`/`-` sign when
it immediately follows an `e`.  Returns the consumed characters and the rest. -/
def scanNumAux : List Char → List Char × List Char
  | [] => ([], [])
  | [c] =>
    if c.isDigit ∨ c = '.' then ([c], [])
    else if c = 'e' then ([c], [])
    else ([], [c])
  | c :: s :: rest2 =>
    if c.isDigit ∨ c = '.' then
      let p := scanNumAux (s :: rest2)
      (c :: p.1, p.2)
    else if c = 'e' then
      if s = '+' ∨ s = '-' then
        let p := scanNumAux rest2
        (c :: s :: p.1, p.2)
      else
        let p := scanNumAux (s :: rest2)
        (c :: p.1, p.2)
    else ([], c :: s :: rest2)

/-- The lookbehind of the `'-'` branch (src/calculator.rs lines 112-113):
`tokens.is_empty() || matches!(tokens.last(), Some(Token::Op(_)) |
Some(Token::Bracket('(')))`.  The token accumulator is kept reversed, so the
Rust `last()` is the head here. -/
def negCtx : List Token → Bool
  | [] => true
  | Token.Op _ :: _ => true
  | Token.Bracket c :: _ => c == '('
  | _ => false

/-- `&expr[expr.find(c).unwrap()..]`: the suffix of the whole input starting at
the FIRST occurrence of the character `c` (not at the current scan position —
this is exactly what the Rust code computes in every named-identifier
branch). -/
def restFromFirst (expr : List Char) (c : Char) : List Char :=
  expr.drop (expr.findIdx (· == c))

/-- `expr[expr.find(c).unwrap()..].starts_with(lit)`. -/
def litAtFirst (expr : List Char) (c : Char) (lit : String) : Bool :=
  (restFromFirst expr c).take lit.toList.length == lit.toList

/-- One iteration of the lexer loop on the current character `c` (the body of
the `match c` of src/calculator.rs lines 73-207): `expr` is the whole
lowercased input, `rest` the input after `c`, `acc` the reversed token
accumulator, `parens` the bracket stack, and `next` is the continuation
scanning the rest of the input (instantiated with `parseAuxN expr n` below).
-/
def parseStep (expr : List Char)
    (next : List Char → List Token → List Char → Except Error (List Token))
    (c : Char) (rest : List Char) (acc : List Token) (parens : List Char) :
    Except Error (List Token) :=
  if c.isDigit ∨ c = '.' then
      match parseF64 (c :: (scanNumAux rest).1) with
      | some q => next (scanNumAux rest).2 (Token.Number q :: acc) parens
      | none => .error (.InvalidNumber (String.mk (c :: (scanNumAux rest).1)))
    else if c = '(' then
      next rest (Token.Bracket '(' :: acc) (c :: parens)
    else if c = ')' then
      match parens with
      | [] => .error .MismatchedParens
      | p :: ps =>
        if p ≠ '(' then .error .MismatchedParens
        else next rest (Token.Bracket ')' :: acc) ps
    else if c = '+' then next rest (Token.Op .Add :: acc) parens
    else if c = '-' then
      if negCtx acc then
        next rest (Token.Op .Mul :: Token.Number (-1) :: acc) parens
      else next rest (Token.Op .Sub :: acc) parens
    else if c = '*' then next rest (Token.Op .Mul :: acc) parens
    else if c = '/' then next rest (Token.Op .Div :: acc) parens
    else if c = '^' then next rest (Token.Op .Pow :: acc) parens
    else if c = '%' then next rest (Token.Op .Mod :: acc) parens
    else if c = 'p' then
      if litAtFirst expr c "pi" then
        next (rest.drop 1) (Token.Constant .Pi :: acc) parens
      else .error (.BadToken c)
    else if c = 'e' then
      match rest with
      | [] => next rest (Token.Constant .E :: acc) parens
      | d :: _ =>
        if d.isAlpha then next rest acc parens
        else next rest (Token.Constant .E :: acc) parens
    else if c = 's' then
      if litAtFirst expr c "sin" then
        next (rest.drop 2) (Token.Function .Sin :: acc) parens
      else if litAtFirst expr c "sqrt" then
        next (rest.drop 3) (Token.Function .Sqrt :: acc) parens
      else .error (.UnknownFunction (String.mk [c]))
    else if c = 'c' then
      if litAtFirst expr c "cos" then
        next (rest.drop 2) (Token.Function .Cos :: acc) parens
      else if litAtFirst expr c "cbrt" then
        next (rest.drop 3) (Token.Function .Cbrt :: acc) parens
      else if litAtFirst expr c "ceil" then
        next (rest.drop 3) (Token.Function .Ceil :: acc) parens
      else .error (.UnknownFunction (String.mk [c]))
    else if c = 't' then
      if litAtFirst expr c "tan" then
        next (rest.drop 2) (Token.Function .Tan :: acc) parens
      else .error (.UnknownFunction (String.mk [c]))
    else if c = 'l' then
      if litAtFirst expr c "log10" then
        next (rest.drop 4) (Token.Function .Log10 :: acc) parens
      else if litAtFirst expr c "log" then
        next (rest.drop 2) (Token.Function .Log :: acc) parens
      else .error (.UnknownFunction (String.mk [c]))
    else if c = 'a' then
      if litAtFirst expr c "abs" then
        next (rest.drop 2) (Token.Function .Abs :: acc) parens
      else .error (.UnknownFunction (String.mk [c]))
    else if c = 'f' then
      if litAtFirst expr c "floor" then
        next (rest.drop 4) (Token.Function .Floor :: acc) parens
      else .error (.UnknownFunction (String.mk [c]))
    else if c = 'r' then
      if litAtFirst expr c "round" then
        next (rest.drop 4) (Token.Function .Round :: acc) parens
      else .error (.UnknownFunction (String.mk [c]))
    else if c = ' ' ∨ c = '\n' then next rest acc parens
    else .error (.BadToken c)

/-- Main lexer loop (the `while let Some(c) = chars.next()` of
src/calculator.rs lines 72-208 plus the final paren check of lines 210-214).
The first `ℕ` argument is fuel, making the recursion structural; the
`(0, _ :: _)` case is unreachable from `parse`, which supplies fuel equal to
the input length: `parseAuxN_fuel` below proves the result independent of the
fuel whenever the fuel is at least the input length, and every recursive call
consumes at least one input character per unit of fuel. -/
def parseAuxN (expr : List Char) : ℕ → List Char → List Token → List Char →
    Except Error (List Token)
  | _, [], acc, parens =>
    if parens.isEmpty then .ok acc.reverse else .error .MismatchedParens
  | 0, c :: _, _, _ => .error (.BadToken c)
  | n + 1, c :: rest, acc, parens => parseStep expr (parseAuxN expr n) c rest acc parens

/-- `Calculator::parse`.  Rust lowercases the input first (`to_lowercase`;
`Char.toLower` agrees on ASCII, which is all the recognised alphabet). -/
def parse (s : String) : Except Error (List Token) :=
  let expr := s.toList.map Char.toLower
  parseAuxN expr expr.length expr [] []

/-! ## Shunting-yard converter: `Calculator::expression`
(src/calculator.rs lines 217-262).  The Rust code reverses the vector and pops
from the end, i.e. processes the tokens in order; the output queue is kept
reversed here (the Rust `queue.push` appends at the end) and reversed once at
the end, and the operator stack has its top at the head. -/

/-- The inner `while let Some(Token::Op(top_op)) = stack.last()` loop of the
operator branch (lines 228-234). -/
def popOps (op : Operator) : List Token → List Token → List Token × List Token
  | [], q => ([], q)
  | t :: s, q =>
    match t with
    | Token.Op top =>
      if op.precedence ≤ top.precedence then popOps op s (Token.Op top :: q)
      else (Token.Op top :: s, q)
    | _ => (t :: s, q)

/-- The close-paren loop (lines 240-249): pop to the output until the `'('`
barrier; drop the barrier; if a function is then atop the stack, pop it to the
output. -/
def popUntilParen : List Token → List Token → List Token × List Token
  | [], q => ([], q)
  | t :: s, q =>
    match t with
    | Token.Bracket c =>
      if c = '(' then
        match s with
        | Token.Function f :: s2 => (s2, Token.Function f :: q)
        | _ => (s, q)
      else popUntilParen s (Token.Bracket c :: q)
    | _ => popUntilParen s (t :: q)

/-- The final drain (lines 255-259): pop everything to the output, silently
discarding leftover `'('` barriers. -/
def drain : List Token → List Token → List Token
  | [], q => q
  | t :: s, q =>
    match t with
    | Token.Bracket c => if c = '(' then drain s q else drain s (Token.Bracket c :: q)
    | _ => drain s (t :: q)

/-- Main conversion loop (lines 223-253). -/
def exprLoop : List Token → List Token → List Token → List Token
  | [], q, stack => drain stack q
  | t :: rest, q, stack =>
    match t with
    | Token.Number _ => exprLoop rest (t :: q) stack
    | Token.Constant _ => exprLoop rest (t :: q) stack
    | Token.Op op =>
      let p := popOps op stack q
      exprLoop rest p.2 (Token.Op op :: p.1)
    | Token.Function _ => exprLoop rest q (t :: stack)
    | Token.Bracket c =>
      if c = '(' then exprLoop rest q (Token.Bracket c :: stack)
      else if c = ')' then
        let p := popUntilParen stack q
        exprLoop rest p.2 p.1
      else exprLoop rest q stack

/-- `Calculator::expression`: total, returns the output queue. -/
def expression (tokens : List Token) : List Token :=
  (exprLoop tokens [] []).reverse

/-! ## Evaluator: `Calculator::evaluate` (src/calculator.rs lines 264-350) -/

/-- Interpretation of the `f64` operations that have no exact rational
counterpart, plus the `f64` constants `PI` and `E`.  The evaluator is
parametrised over an arbitrary such interpretation. -/
structure FloatFns where
  sin : ℚ → ℚ
  cos : ℚ → ℚ
  tan : ℚ → ℚ
  sqrt : ℚ → ℚ
  cbrt : ℚ → ℚ
  ln : ℚ → ℚ
  log10 : ℚ → ℚ
  powf : ℚ → ℚ → ℚ
  pi : ℚ
  e : ℚ

/-- Truncation toward zero, as Rust's `f64 as`-free truncated division uses. -/
def ratTrunc (q : ℚ) : ℤ := if 0 ≤ q then ⌊q⌋ else ⌈q⌉

/-- Rust's `f64` `%`: remainder with truncated quotient (sign of the
dividend). -/
def fmod (a b : ℚ) : ℚ := a - b * (ratTrunc (a / b) : ℚ)

/-- Rust's `f64::round`: round half away from zero. -/
def ratRound (q : ℚ) : ℚ := if 0 ≤ q then (⌊q + 1 / 2⌋ : ℚ) else (⌈q - 1 / 2⌉ : ℚ)

/-- Main evaluation loop (the `while let Some(token) = tokens.pop()` of lines
269-343 followed by the final stack check of lines 345-349).  The Rust code
reverses and pops from the end, i.e. processes the tokens in order; the value
stack has its top at the head, so the right operand is popped first. -/
def evalLoop (F : FloatFns) : List Token → List ℚ → Except Error ℚ
  | [], stack =>
    match stack with
    | [v] => .ok v
    | _ => .error (.InvalidOperation "Expresión inválida")
  | t :: rest, stack =>
    match t with
    | Token.Number q => evalLoop F rest (q :: stack)
    | Token.Constant c =>
      match c with
      | .Pi => evalLoop F rest (F.pi :: stack)
      | .E => evalLoop F rest (F.e :: stack)
    | Token.Op op =>
      match stack with
      | r :: l :: s =>
        match op with
        | .Add => evalLoop F rest ((l + r) :: s)
        | .Sub => evalLoop F rest ((l - r) :: s)
        | .Mul => evalLoop F rest ((l * r) :: s)
        | .Div =>
          if r = 0 then .error .DivisionByZero
          else evalLoop F rest ((l / r) :: s)
        | .Pow => evalLoop F rest (F.powf l r :: s)
        | .Mod =>
          if r = 0 then .error .DivisionByZero
          else evalLoop F rest (fmod l r :: s)
      | _ => .error (.InvalidOperation "No hay suficientes operandos")
    | Token.Function f =>
      match stack with
      | v :: s =>
        match f with
        | .Sin => evalLoop F rest (F.sin v :: s)
        | .Cos => evalLoop F rest (F.cos v :: s)
        | .Tan => evalLoop F rest (F.tan v :: s)
        | .Sqrt =>
          if v < 0 then
            .error (.InvalidOperation
              "No se puede sacar raíz cuadrada de un número negativo")
          else evalLoop F rest (F.sqrt v :: s)
        | .Cbrt => evalLoop F rest (F.cbrt v :: s)
        | .Log =>
          if v ≤ 0 then
            .error (.InvalidOperation
              "No se puede tomar el logaritmo de un número no positivo")
          else evalLoop F rest (F.ln v :: s)
        | .Log10 =>
          if v ≤ 0 then
            .error (.InvalidOperation
              "No se puede tomar el logaritmo de un número no positivo")
          else evalLoop F rest (F.log10 v :: s)
        | .Abs => evalLoop F rest (|v| :: s)
        | .Floor => evalLoop F rest ((⌊v⌋ : ℚ) :: s)
        | .Ceil => evalLoop F rest ((⌈v⌉ : ℚ) :: s)
        | .Round => evalLoop F rest (ratRound v :: s)
      | [] => .error (.InvalidOperation "No hay suficientes operandos para la función")
    | Token.Bracket _ => evalLoop F rest stack

/-- `Calculator::evaluate`. -/
def evaluate (F : FloatFns) (tokens : List Token) : Except Error ℚ :=
  evalLoop F tokens []

/-- The full pipeline, as `CalculatorApp::calculate` in src/main.rs chains the
three stages: `parse`, then `expression`, then `evaluate`. -/
def calcRun (F : FloatFns) (s : String) : Except Error ℚ :=
  match parse s with
  | .error e => .error e
  | .ok tokens => evaluate F (expression tokens)

/-- A concrete interpretation of the transcendental operations, used to witness
theorems quantified over `FloatFns`: `powf` is exponentiation by the
numerator (which agrees with Rust's `powf` at every integral exponent a claim
uses), the rest is arbitrary. -/
def F0 : FloatFns where
  sin := fun _ => 0
  cos := fun _ => 0
  tan := fun _ => 0
  sqrt := fun _ => 0
  cbrt := fun _ => 0
  ln := fun _ => 0
  log10 := fun _ => 0
  powf := fun b ex => b ^ ex.num
  pi := 0
  e := 0

/-- A stack entry is an operator of precedence at least `op.precedence` — the
pop condition of the operator branch (src/calculator.rs lines 228-229). -/
def gePrec (op : Operator) : Token → Bool
  | Token.Op top => decide (op.precedence ≤ top.precedence)
  | _ => false

/-- Not a bracket token of any kind. -/
def notBracket : Token → Bool
  | Token.Bracket _ => false
  | _ => true

/-- Not an open-paren barrier — the final-drain filter condition
(src/calculator.rs line 256). -/
def notOpenParen (t : Token) : Bool := t != Token.Bracket '('

/-- Tokens the converter can ever push on its operator stack: operators,
functions and `'('` barriers. -/
def stackTok : Token → Bool
  | Token.Op _ => true
  | Token.Function _ => true
  | Token.Bracket c => c == '('
  | _ => false

/-! ## Helper lemmas -/

theorem scanNumAux_len : ∀ cs : List Char, (scanNumAux cs).2.length ≤ cs.length := by
  intro cs
  induction cs using scanNumAux.induct <;> simp_all [scanNumAux] <;> omega

set_option maxHeartbeats 2000000 in
theorem parseStep_congr (expr : List Char)
    (f g : List Char → List Token → List Char → Except Error (List Token))
    (c : Char) (rest : List Char) (acc : List Token) (parens : List Char)
    (h : ∀ (cs : List Char) (acc2 : List Token) (parens2 : List Char),
      cs.length ≤ rest.length → f cs acc2 parens2 = g cs acc2 parens2) :
    parseStep expr f c rest acc parens = parseStep expr g c rest acc parens := by
  have hs := scanNumAux_len rest
  have hdrop : ∀ k : ℕ, (List.drop k rest).length ≤ rest.length := fun k => by
    simp only [List.length_drop]; omega
  unfold parseStep
  by_cases h1 : (c.isDigit = true ∨ c = '.')
  · rw [if_pos h1, if_pos h1]
    cases parseF64 (c :: (scanNumAux rest).1) with
    | none => rfl
    | some q => exact h _ _ _ hs
  rw [if_neg h1, if_neg h1]
  by_cases h2 : c = '('
  · rw [if_pos h2, if_pos h2]; exact h _ _ _ le_rfl
  rw [if_neg h2, if_neg h2]
  by_cases h3 : c = ')'
  · rw [if_pos h3, if_pos h3]
    cases parens with
    | nil => rfl
    | cons p ps =>
      dsimp only []
      by_cases hp : p ≠ '('
      · rw [if_pos hp, if_pos hp]
      · rw [if_neg hp, if_neg hp]; exact h _ _ _ le_rfl
  rw [if_neg h3, if_neg h3]
  by_cases h4 : c = '+'
  · rw [if_pos h4, if_pos h4]; exact h _ _ _ le_rfl
  rw [if_neg h4, if_neg h4]
  by_cases h5 : c = '-'
  · rw [if_pos h5, if_pos h5]
    by_cases hneg : negCtx acc = true
    · rw [if_pos hneg, if_pos hneg]; exact h _ _ _ le_rfl
    · rw [if_neg hneg, if_neg hneg]; exact h _ _ _ le_rfl
  rw [if_neg h5, if_neg h5]
  by_cases h6 : c = '*'
  · rw [if_pos h6, if_pos h6]; exact h _ _ _ le_rfl
  rw [if_neg h6, if_neg h6]
  by_cases h7 : c = '/'
  · rw [if_pos h7, if_pos h7]; exact h _ _ _ le_rfl
  rw [if_neg h7, if_neg h7]
  by_cases h8 : c = '^'
  · rw [if_pos h8, if_pos h8]; exact h _ _ _ le_rfl
  rw [if_neg h8, if_neg h8]
  by_cases h9 : c = '%'
  · rw [if_pos h9, if_pos h9]; exact h _ _ _ le_rfl
  rw [if_neg h9, if_neg h9]
  by_cases h10 : c = 'p'
  · rw [if_pos h10, if_pos h10]
    by_cases hpi : litAtFirst expr c "pi" = true
    · rw [if_pos hpi, if_pos hpi]; exact h _ _ _ (hdrop 1)
    · rw [if_neg hpi, if_neg hpi]
  rw [if_neg h10, if_neg h10]
  by_cases h11 : c = 'e'
  · rw [if_pos h11, if_pos h11]
    cases rest with
    | nil => exact h _ _ _ le_rfl
    | cons d tl =>
      dsimp only []
      by_cases hd : d.isAlpha = true
      · rw [if_pos hd, if_pos hd]; exact h _ _ _ le_rfl
      · rw [if_neg hd, if_neg hd]; exact h _ _ _ le_rfl
  rw [if_neg h11, if_neg h11]
  by_cases h12 : c = 's'
  · rw [if_pos h12, if_pos h12]
    by_cases ha : litAtFirst expr c "sin" = true
    · rw [if_pos ha, if_pos ha]; exact h _ _ _ (hdrop 2)
    rw [if_neg ha, if_neg ha]
    by_cases hb : litAtFirst expr c "sqrt" = true
    · rw [if_pos hb, if_pos hb]; exact h _ _ _ (hdrop 3)
    · rw [if_neg hb, if_neg hb]
  rw [if_neg h12, if_neg h12]
  by_cases h13 : c = 'c'
  · rw [if_pos h13, if_pos h13]
    by_cases ha : litAtFirst expr c "cos" = true
    · rw [if_pos ha, if_pos ha]; exact h _ _ _ (hdrop 2)
    rw [if_neg ha, if_neg ha]
    by_cases hb : litAtFirst expr c "cbrt" = true
    · rw [if_pos hb, if_pos hb]; exact h _ _ _ (hdrop 3)
    rw [if_neg hb, if_neg hb]
    by_cases hc2 : litAtFirst expr c "ceil" = true
    · rw [if_pos hc2, if_pos hc2]; exact h _ _ _ (hdrop 3)
    · rw [if_neg hc2, if_neg hc2]
  rw [if_neg h13, if_neg h13]
  by_cases h14 : c = 't'
  · rw [if_pos h14, if_pos h14]
    by_cases ha : litAtFirst expr c "tan" = true
    · rw [if_pos ha, if_pos ha]; exact h _ _ _ (hdrop 2)
    · rw [if_neg ha, if_neg ha]
  rw [if_neg h14, if_neg h14]
  by_cases h15 : c = 'l'
  · rw [if_pos h15, if_pos h15]
    by_cases ha : litAtFirst expr c "log10" = true
    · rw [if_pos ha, if_pos ha]; exact h _ _ _ (hdrop 4)
    rw [if_neg ha, if_neg ha]
    by_cases hb : litAtFirst expr c "log" = true
    · rw [if_pos hb, if_pos hb]; exact h _ _ _ (hdrop 2)
    · rw [if_neg hb, if_neg hb]
  rw [if_neg h15, if_neg h15]
  by_cases h16 : c = 'a'
  · rw [if_pos h16, if_pos h16]
    by_cases ha : litAtFirst expr c "abs" = true
    · rw [if_pos ha, if_pos ha]; exact h _ _ _ (hdrop 2)
    · rw [if_neg ha, if_neg ha]
  rw [if_neg h16, if_neg h16]
  by_cases h17 : c = 'f'
  · rw [if_pos h17, if_pos h17]
    by_cases ha : litAtFirst expr c "floor" = true
    · rw [if_pos ha, if_pos ha]; exact h _ _ _ (hdrop 4)
    · rw [if_neg ha, if_neg ha]
  rw [if_neg h17, if_neg h17]
  by_cases h18 : c = 'r'
  · rw [if_pos h18, if_pos h18]
    by_cases ha : litAtFirst expr c "round" = true
    · rw [if_pos ha, if_pos ha]; exact h _ _ _ (hdrop 4)
    · rw [if_neg ha, if_neg ha]
  rw [if_neg h18, if_neg h18]
  by_cases h19 : (c = ' ' ∨ c = '\n')
  · rw [if_pos h19, if_pos h19]; exact h _ _ _ le_rfl
  · rw [if_neg h19, if_neg h19]

/-- The fuel argument of `parseAuxN` is irrelevant as long as it is at least
the length of the remaining input: the lexer consumes at least one character
per unit of fuel.  In particular the fuel-exhausted branch is unreachable from
`parse`, which supplies fuel equal to the input length. -/
theorem parseAuxN_fuel (expr : List Char) : ∀ (k : ℕ) (cs : List Char),
    cs.length ≤ k → ∀ (n m : ℕ) (acc : List Token) (parens : List Char),
    cs.length ≤ n → cs.length ≤ m →
    parseAuxN expr n cs acc parens = parseAuxN expr m cs acc parens := by
  intro k
  induction k with
  | zero =>
    intro cs hcs n m acc parens _ _
    have : cs = [] := List.length_eq_zero.mp (Nat.le_zero.mp hcs)
    subst this
    cases n <;> cases m <;> rfl
  | succ k ih =>
    intro cs hcs n m acc parens hn hm
    cases cs with
    | nil => cases n <;> cases m <;> rfl
    | cons c rest =>
      simp only [List.length_cons] at hcs hn hm
      obtain ⟨n2, rfl⟩ : ∃ x, n = x + 1 := ⟨n - 1, by omega⟩
      obtain ⟨m2, rfl⟩ : ∃ x, m = x + 1 := ⟨m - 1, by omega⟩
      have e1 : parseAuxN expr (n2 + 1) (c :: rest) acc parens =
          parseStep expr (parseAuxN expr n2) c rest acc parens := rfl
      have e2 : parseAuxN expr (m2 + 1) (c :: rest) acc parens =
          parseStep expr (parseAuxN expr m2) c rest acc parens := rfl
      rw [e1, e2]
      apply parseStep_congr
      intro cs2 acc2 parens2 hlen
      calc parseAuxN expr n2 cs2 acc2 parens2
          = parseAuxN expr k cs2 acc2 parens2 :=
            ih cs2 (by omega) n2 k acc2 parens2 (by omega) (by omega)
        _ = parseAuxN expr m2 cs2 acc2 parens2 :=
            ih cs2 (by omega) k m2 acc2 parens2 (by omega) (by omega)

theorem popOps_eq (op : Operator) : ∀ (stack q : List Token),
    popOps op stack q =
      (stack.dropWhile (gePrec op), (stack.takeWhile (gePrec op)).reverse ++ q) := by
  intro stack
  induction stack with
  | nil => intro q; simp [popOps]
  | cons t s ih =>
    intro q
    cases t with
    | Op top =>
      by_cases h : op.precedence ≤ top.precedence
      · simp [popOps, gePrec, h, ih, List.takeWhile_cons, List.dropWhile_cons]
      · simp [popOps, gePrec, h, List.takeWhile_cons, List.dropWhile_cons]
    | Number q0 => simp [popOps, gePrec, List.takeWhile_cons, List.dropWhile_cons]
    | Bracket c => simp [popOps, gePrec, List.takeWhile_cons, List.dropWhile_cons]
    | Function f => simp [popOps, gePrec, List.takeWhile_cons, List.dropWhile_cons]
    | Constant c => simp [popOps, gePrec, List.takeWhile_cons, List.dropWhile_cons]

theorem drain_eq : ∀ (stack q : List Token),
    drain stack q = (stack.filter notOpenParen).reverse ++ q := by
  intro stack
  induction stack with
  | nil => intro q; simp [drain]
  | cons t s ih =>
    intro q
    cases t with
    | Bracket c =>
      by_cases h : c = '('
      · subst h; simp [drain, notOpenParen, ih]
      · simp [drain, notOpenParen, h, ih]
    | Number q0 => simp [drain, notOpenParen, ih]
    | Op op => simp [drain, notOpenParen, ih]
    | Function f => simp [drain, notOpenParen, ih]
    | Constant c => simp [drain, notOpenParen, ih]

theorem popOps_inv (op : Operator) : ∀ (stack q : List Token),
    stack.all stackTok = true → q.all notBracket = true →
    (popOps op stack q).1.all stackTok = true ∧
      (popOps op stack q).2.all notBracket = true := by
  intro stack
  induction stack with
  | nil => intro q _ hq; exact ⟨rfl, hq⟩
  | cons t s ih =>
    intro q hs hq
    simp only [List.all_cons, Bool.and_eq_true] at hs
    obtain ⟨ht, hs⟩ := hs
    cases t with
    | Op top =>
      by_cases h : op.precedence ≤ top.precedence
      · have e : popOps op (Token.Op top :: s) q = popOps op s (Token.Op top :: q) := by
          simp [popOps, h]
        rw [e]
        exact ih (Token.Op top :: q) hs (by simp [List.all_cons, notBracket, hq])
      · have e : popOps op (Token.Op top :: s) q = (Token.Op top :: s, q) := by
          simp [popOps, h]
        rw [e]
        exact ⟨by simp [List.all_cons, ht, hs], hq⟩
    | Number q0 => exact ⟨by simp [popOps, List.all_cons, ht, hs], hq⟩
    | Bracket c => exact ⟨by simp [popOps, List.all_cons, ht, hs], hq⟩
    | Function f => exact ⟨by simp [popOps, List.all_cons, ht, hs], hq⟩
    | Constant c => exact ⟨by simp [popOps, List.all_cons, ht, hs], hq⟩

theorem popUntilParen_inv : ∀ (stack q : List Token),
    stack.all stackTok = true → q.all notBracket = true →
    (popUntilParen stack q).1.all stackTok = true ∧
      (popUntilParen stack q).2.all notBracket = true := by
  intro stack
  induction stack with
  | nil => intro q _ hq; exact ⟨rfl, hq⟩
  | cons t s ih =>
    intro q hs hq
    simp only [List.all_cons, Bool.and_eq_true] at hs
    obtain ⟨ht, hs⟩ := hs
    cases t with
    | Bracket c =>
      have hc : c = '(' := by simpa [stackTok] using ht
      subst hc
      cases s with
      | nil => exact ⟨rfl, hq⟩
      | cons u s2 =>
        simp only [List.all_cons, Bool.and_eq_true] at hs
        obtain ⟨hu, hs2⟩ := hs
        cases u with
        | Function f =>
          exact ⟨hs2, by simp [popUntilParen, List.all_cons, notBracket, hq]⟩
        | Number q0 => exact ⟨by simp [popUntilParen, List.all_cons, hu, hs2], hq⟩
        | Op op => exact ⟨by simp [popUntilParen, List.all_cons, hu, hs2], hq⟩
        | Bracket c2 => exact ⟨by simp [popUntilParen, List.all_cons, hu, hs2], hq⟩
        | Constant c2 => exact ⟨by simp [popUntilParen, List.all_cons, hu, hs2], hq⟩
    | Number q0 =>
      exact ih (Token.Number q0 :: q) hs (by simp [List.all_cons, notBracket, hq])
    | Op op =>
      exact ih (Token.Op op :: q) hs (by simp [List.all_cons, notBracket, hq])
    | Function f =>
      exact ih (Token.Function f :: q) hs (by simp [List.all_cons, notBracket, hq])
    | Constant c =>
      exact ih (Token.Constant c :: q) hs (by simp [List.all_cons, notBracket, hq])

theorem drain_inv : ∀ (stack q : List Token),
    stack.all stackTok = true → q.all notBracket = true →
    (drain stack q).all notBracket = true := by
  intro stack
  induction stack with
  | nil => intro q _ hq; exact hq
  | cons t s ih =>
    intro q hs hq
    simp only [List.all_cons, Bool.and_eq_true] at hs
    obtain ⟨ht, hs⟩ := hs
    cases t with
    | Bracket c =>
      have hc : c = '(' := by simpa [stackTok] using ht
      subst hc
      exact ih q hs hq
    | Number q0 => exact ih (Token.Number q0 :: q) hs (by simp [List.all_cons, notBracket, hq])
    | Op op => exact ih (Token.Op op :: q) hs (by simp [List.all_cons, notBracket, hq])
    | Function f => exact ih (Token.Function f :: q) hs (by simp [List.all_cons, notBracket, hq])
    | Constant c => exact ih (Token.Constant c :: q) hs (by simp [List.all_cons, notBracket, hq])

theorem exprLoop_inv : ∀ (ts q stack : List Token),
    stack.all stackTok = true → q.all notBracket = true →
    (exprLoop ts q stack).all notBracket = true := by
  intro ts
  induction ts with
  | nil => intro q stack hs hq; exact drain_inv stack q hs hq
  | cons t rest ih =>
    intro q stack hs hq
    cases t with
    | Number q0 =>
      exact ih (Token.Number q0 :: q) stack hs (by simp [List.all_cons, notBracket, hq])
    | Constant c =>
      exact ih (Token.Constant c :: q) stack hs (by simp [List.all_cons, notBracket, hq])
    | Op op =>
      have h := popOps_inv op stack q hs hq
      exact ih (popOps op stack q).2 (Token.Op op :: (popOps op stack q).1)
        (by simp [List.all_cons, stackTok, h.1]) h.2
    | Function f =>
      exact ih q (Token.Function f :: stack) (by simp [List.all_cons, stackTok, hs]) hq
    | Bracket c =>
      by_cases h1 : c = '('
      · subst h1
        exact ih q (Token.Bracket '(' :: stack)
          (by simp [List.all_cons, stackTok, hs]) hq
      · by_cases h2 : c = ')'
        · subst h2
          have h := popUntilParen_inv stack q hs hq
          exact ih (popUntilParen stack q).2 (popUntilParen stack q).1 h.1 h.2
        · have e : exprLoop (Token.Bracket c :: rest) q stack = exprLoop rest q stack := by
            simp [exprLoop, h1, h2]
          rw [e]
          exact ih q stack hs hq

theorem exprLoop_open_replicate : ∀ (n : ℕ) (q s : List Token),
    exprLoop (List.replicate n (Token.Bracket '(')) q s = drain s q := by
  intro n
  induction n with
  | zero => intro q s; rfl
  | succ m ih =>
    intro q s
    have e : exprLoop (List.replicate (m + 1) (Token.Bracket '(')) q s =
        exprLoop (List.replicate m (Token.Bracket '(')) q (Token.Bracket '(' :: s) := rfl
    rw [e, ih]
    rfl

theorem parseAuxN_whitespace (expr : List Char) : ∀ (cs : List Char) (n : ℕ)
    (acc : List Token) (parens : List Char), cs.length ≤ n →
    (∀ c ∈ cs, c = ' ' ∨ c = '\n') →
    parseAuxN expr n cs acc parens =
      if parens.isEmpty then .ok acc.reverse else .error .MismatchedParens := by
  intro cs
  induction cs with
  | nil => intro n acc parens _ _; cases n <;> rfl
  | cons c cs ih =>
    intro n acc parens hlen hws
    obtain ⟨m, rfl⟩ : ∃ m, n = m + 1 := by
      cases n with
      | zero => simp at hlen
      | succ m => exact ⟨m, rfl⟩
    have htail : ∀ d ∈ cs, d = ' ' ∨ d = '\n' := fun d hd => hws d (by simp [hd])
    have hlen2 : cs.length ≤ m := by simp at hlen; omega
    rcases hws c (by simp) with rfl | rfl
    · have e : parseAuxN expr (m + 1) (' ' :: cs) acc parens =
          parseAuxN expr m cs acc parens := rfl
      rw [e]
      exact ih m acc parens hlen2 htail
    · have e : parseAuxN expr (m + 1) ('\n' :: cs) acc parens =
          parseAuxN expr m cs acc parens := rfl
      rw [e]
      exact ih m acc parens hlen2 htail

/-! ## Claim theorems -/

/-- C5: the converter is a total function (its type here is `List Token →
List Token`, with no error path) and leftover brackets are silently
discarded: the final drain appends exactly the non-`'('` stack entries to the
output, the output of `expression` never contains any bracket token, and a
token sequence of unmatched open parens converts to the empty output. -/
theorem c5_converter_total_discards_parens :
    (∀ stack q : List Token,
      drain stack q = (stack.filter notOpenParen).reverse ++ q) ∧
    (∀ ts : List Token, (expression ts).all notBracket = true) ∧
    (∀ n : ℕ, expression (List.replicate n (Token.Bracket '(')) = []) := by
  refine ⟨drain_eq, ?_, ?_⟩
  · intro ts
    have h := exprLoop_inv ts [] [] rfl rfl
    simpa [expression, List.all_reverse] using h
  · intro n
    have h := exprLoop_open_replicate n [] []
    simp [expression, h]
    rfl

/-- C3: a `-` scanned as the first token, or right after an operator token or
an open-paren token (`negCtx` on the reversed accumulator), emits the literal
`-1` followed by a multiplication operator; every other `-` emits a
subtraction operator; consequently `"-5+3"` evaluates to `-2` and `"3--2"`
evaluates to `5` through the full pipeline, for every interpretation of the
transcendental operations. -/
theorem c3_contextual_minus :
    (∀ (expr : List Char) (n : ℕ) (rest : List Char) (acc : List Token)
        (parens : List Char), negCtx acc = true →
      parseAuxN expr (n + 1) ('-' :: rest) acc parens =
        parseAuxN expr n rest (Token.Op .Mul :: Token.Number (-1) :: acc) parens) ∧
    (∀ (expr : List Char) (n : ℕ) (rest : List Char) (acc : List Token)
        (parens : List Char), negCtx acc = false →
      parseAuxN expr (n + 1) ('-' :: rest) acc parens =
        parseAuxN expr n rest (Token.Op .Sub :: acc) parens) ∧
    (∀ F : FloatFns, calcRun F "-5+3" = .ok (-2)) ∧
    (∀ F : FloatFns, calcRun F "3--2" = .ok 5) := by
  refine ⟨?_, ?_, ?_, ?_⟩
  · intro expr n rest acc parens h
    have e : parseAuxN expr (n + 1) ('-' :: rest) acc parens =
        if negCtx acc then
          parseAuxN expr n rest (Token.Op .Mul :: Token.Number (-1) :: acc) parens
        else parseAuxN expr n rest (Token.Op .Sub :: acc) parens := rfl
    rw [e, h]
    simp
  · intro expr n rest acc parens h
    have e : parseAuxN expr (n + 1) ('-' :: rest) acc parens =
        if negCtx acc then
          parseAuxN expr n rest (Token.Op .Mul :: Token.Number (-1) :: acc) parens
        else parseAuxN expr n rest (Token.Op .Sub :: acc) parens := rfl
    rw [e, h]
    simp
  · intro F
    have key : calcRun F "-5+3" = Except.ok ((-1 : ℚ) * 5 + 3) := rfl
    rw [key]
    norm_num
  · intro F
    have key : calcRun F "3--2" = Except.ok ((3 : ℚ) - (-1) * 2) := rfl
    rw [key]
    norm_num

/-- C3 witness: the two lexer equations applied at concrete states — a leading
`-` (empty accumulator) and a `-` after a number token. -/
theorem c3_contextual_minus_witness :
    parseAuxN [] 1 ['-'] [] [] =
      parseAuxN [] 0 [] [Token.Op .Mul, Token.Number (-1)] [] ∧
    parseAuxN [] 1 ['-'] [Token.Number 3] [] =
      parseAuxN [] 0 [] [Token.Op .Sub, Token.Number 3] [] :=
  ⟨c3_contextual_minus.1 [] 0 [] [] [] rfl,
   c3_contextual_minus.2.1 [] 0 [] [Token.Number 3] [] rfl⟩

/-- C4: an incoming operator pops and appends exactly the stack operators whose
precedence is greater than or equal to its own (the `takeWhile`/`dropWhile`
split of the stack under `gePrec`) before being pushed — left-associative
resolution at equal precedence, `Pow` included; consequently `"2^3^2"`
evaluates through the full pipeline to `(2^3)^2 = 64` (not `512`) for every
interpretation whose `powf` agrees with Rust's at the two points used. -/
theorem c4_geq_pop_left_assoc :
    (∀ (op : Operator) (rest q stack : List Token),
      exprLoop (Token.Op op :: rest) q stack =
        exprLoop rest ((stack.takeWhile (gePrec op)).reverse ++ q)
          (Token.Op op :: stack.dropWhile (gePrec op))) ∧
    (∀ F : FloatFns, F.powf 2 3 = 8 → F.powf 8 2 = 64 →
      calcRun F "2^3^2" = .ok 64) := by
  constructor
  · intro op rest q stack
    have e : exprLoop (Token.Op op :: rest) q stack =
        exprLoop rest (popOps op stack q).2 (Token.Op op :: (popOps op stack q).1) := rfl
    rw [e, popOps_eq]
  · intro F h1 h2
    have key : calcRun F "2^3^2" = Except.ok (F.powf (F.powf 2 3) 2) := rfl
    rw [key, h1, h2]

/-- C4 witness: the interpretation `F0` satisfies both `powf` facts, and the
pipeline then yields 64 on `"2^3^2"`. -/
theorem c4_geq_pop_left_assoc_witness :
    F0.powf 2 3 = 8 ∧ F0.powf 8 2 = 64 ∧ calcRun F0 "2^3^2" = .ok 64 := by
  have h1 : F0.powf 2 3 = 8 := by
    show (2 : ℚ) ^ (3 : ℚ).num = 8
    norm_num
  have h2 : F0.powf 8 2 = 64 := by
    show (8 : ℚ) ^ (2 : ℚ).num = 64
    norm_num
  exact ⟨h1, h2, c4_geq_pop_left_assoc.2 F0 h1 h2⟩

/-- C7: applying `Div` or `Mod` with right operand `0` (the stack top, popped
first) yields `DivisionByZero` before any division is performed, in any
evaluator state; and `"5/0"` and `"5%0"` fail with `DivisionByZero` through
the full pipeline for every interpretation. -/
theorem c7_division_by_zero :
    (∀ (F : FloatFns) (rest : List Token) (l : ℚ) (s : List ℚ),
      evalLoop F (Token.Op .Div :: rest) (0 :: l :: s) = .error .DivisionByZero) ∧
    (∀ (F : FloatFns) (rest : List Token) (l : ℚ) (s : List ℚ),
      evalLoop F (Token.Op .Mod :: rest) (0 :: l :: s) = .error .DivisionByZero) ∧
    (∀ F : FloatFns, calcRun F "5/0" = .error .DivisionByZero) ∧
    (∀ F : FloatFns, calcRun F "5%0" = .error .DivisionByZero) :=
  ⟨fun _ _ _ _ => rfl, fun _ _ _ _ => rfl, fun _ => rfl, fun _ => rfl⟩

/-- C1: evaluation of the lexer at the input `"sin(sqrt(4))"`, where the
trigger letters `s` and `t` occur more than once.  The claim (and the spec)
state that named identifiers are matched against the text at the current scan
position, which would tokenize this input as
`Sin ( Sqrt ( 4 ) )`; the code instead matches against
`&expr[expr.find(c).unwrap()..]` — the suffix at the FIRST occurrence of the
letter in the whole input — so the second `s` is matched against `"sin(..."`
from position 0, emits a second `Sin`, misconsumes `"qr"`, and the lexer then
fails on `t` with `UnknownFunction "t"`.  On an input where each trigger
letter occurs only once, such as `"sqrt(4)"`, first occurrence and scan
position coincide and the lexer behaves as the claim states. -/
theorem c1_prefix_match_uses_first_occurrence :
    parse "sin(sqrt(4))" = .error (.UnknownFunction "t") ∧
    parse "sin(sqrt(4))" ≠ .ok [Token.Function .Sin, Token.Bracket '(',
      Token.Function .Sqrt, Token.Bracket '(', Token.Number 4,
      Token.Bracket ')', Token.Bracket ')'] ∧
    parse "sqrt(4)" = .ok [Token.Function .Sqrt, Token.Bracket '(',
      Token.Number 4, Token.Bracket ')'] := by
  refine ⟨by decide, by decide, by decide⟩

/-- C2 counterexample: the claim says that an `e` followed by a letter that
does not complete a known multi-letter function name yields an
`UnknownFunction` error carrying that letter.  At the input `"ex"` the
following letter `x` completes no known name, yet the lexer returns
`BadToken 'x'`, not `UnknownFunction "x"`: the `e` branch emits nothing and
the next iteration scans `x` on its own, hitting the catch-all branch. -/
theorem c2_counterexample_ex :
    parse "ex" = .error (.BadToken 'x') ∧
    parse "ex" ≠ .error (.UnknownFunction "x") := by
  refine ⟨by decide, by decide⟩

/-- C2 (amended): the `e` branch emits the `Constant E` token exactly when the
`e` is not immediately followed by an alphabetic character; when it is, the
`e` emits nothing and scanning simply continues at the following letter, which
is then processed on its own — producing `UnknownFunction` only when that
letter is itself a recognised trigger letter whose text fails to complete a
known name (e.g. `"es"`), and `BadToken` otherwise (e.g. `"ex"`). -/
theorem c2_bare_e_constant :
    (∀ (expr : List Char) (n : ℕ) (acc : List Token) (parens : List Char),
      parseAuxN expr (n + 1) ['e'] acc parens =
        parseAuxN expr n [] (Token.Constant .E :: acc) parens) ∧
    (∀ (expr : List Char) (n : ℕ) (d : Char) (rest : List Char)
        (acc : List Token) (parens : List Char), d.isAlpha = false →
      parseAuxN expr (n + 1) ('e' :: d :: rest) acc parens =
        parseAuxN expr n (d :: rest) (Token.Constant .E :: acc) parens) ∧
    (∀ (expr : List Char) (n : ℕ) (d : Char) (rest : List Char)
        (acc : List Token) (parens : List Char), d.isAlpha = true →
      parseAuxN expr (n + 1) ('e' :: d :: rest) acc parens =
        parseAuxN expr n (d :: rest) acc parens) ∧
    parse "es" = .error (.UnknownFunction "s") ∧
    parse "ex" = .error (.BadToken 'x') := by
  refine ⟨?_, ?_, ?_, by decide, by decide⟩
  · intro expr n acc parens
    rfl
  · intro expr n d rest acc parens h
    have e : parseAuxN expr (n + 1) ('e' :: d :: rest) acc parens =
        if d.isAlpha then parseAuxN expr n (d :: rest) acc parens
        else parseAuxN expr n (d :: rest) (Token.Constant .E :: acc) parens := rfl
    rw [e, h]
    simp
  · intro expr n d rest acc parens h
    have e : parseAuxN expr (n + 1) ('e' :: d :: rest) acc parens =
        if d.isAlpha then parseAuxN expr n (d :: rest) acc parens
        else parseAuxN expr n (d :: rest) (Token.Constant .E :: acc) parens := rfl
    rw [e, h]
    simp

/-- C2 witness: the branch equations applied at concrete states — `e` before a
non-letter emits the constant, `e` before a letter emits nothing. -/
theorem c2_bare_e_constant_witness :
    parseAuxN [] 1 ['e', '1'] [] [] =
      parseAuxN [] 0 ['1'] [Token.Constant .E] [] ∧
    parseAuxN [] 1 ['e', 'x'] [] [] = parseAuxN [] 0 ['x'] [] [] :=
  ⟨c2_bare_e_constant.2.1 [] 0 '1' [] [] [] rfl,
   c2_bare_e_constant.2.2.1 [] 0 'x' [] [] [] rfl⟩

/-- C6: the lexer signals `MismatchedParens` exactly at the two points the
claim names, in terms of its paren stack: a `)` scanned with an empty paren
stack is rejected immediately; end of input with a non-empty paren stack is
rejected; a `)` with an outstanding `(` and an `(` itself are always accepted
(the `(` pushing onto the stack), and end of input with an empty paren stack
succeeds.  The §8 examples `"(2+3"` and `"2+3)"` both fail with
`MismatchedParens`. -/
theorem c6_mismatched_parens :
    (∀ (expr : List Char) (n : ℕ) (rest : List Char) (acc : List Token),
      parseAuxN expr (n + 1) (')' :: rest) acc [] = .error .MismatchedParens) ∧
    (∀ (expr : List Char) (n : ℕ) (rest : List Char) (acc : List Token)
        (ps : List Char),
      parseAuxN expr (n + 1) (')' :: rest) acc ('(' :: ps) =
        parseAuxN expr n rest (Token.Bracket ')' :: acc) ps) ∧
    (∀ (expr : List Char) (n : ℕ) (rest : List Char) (acc : List Token)
        (parens : List Char),
      parseAuxN expr (n + 1) ('(' :: rest) acc parens =
        parseAuxN expr n rest (Token.Bracket '(' :: acc) ('(' :: parens)) ∧
    (∀ (expr : List Char) (n : ℕ) (acc : List Token) (p : Char) (ps : List Char),
      parseAuxN expr n [] acc (p :: ps) = .error .MismatchedParens) ∧
    (∀ (expr : List Char) (n : ℕ) (acc : List Token),
      parseAuxN expr n [] acc [] = .ok acc.reverse) ∧
    parse "(2+3" = .error .MismatchedParens ∧
    parse "2+3)" = .error .MismatchedParens := by
  refine ⟨fun _ _ _ _ => rfl, fun _ _ _ _ _ => rfl, fun _ _ _ _ _ => rfl,
    ?_, ?_, by decide, by decide⟩
  · intro expr n acc p ps
    cases n <;> rfl
  · intro expr n acc
    cases n <;> rfl

/-- C8: `Sqrt` on a strictly negative operand and `Log`/`Log10` on a
non-positive operand fail with the corresponding `InvalidOperation` error in
any evaluator state; on the complementary domains the interpreted square
root, natural log and base-10 log are computed and pushed. -/
theorem c8_domain_guards :
    (∀ (F : FloatFns) (rest : List Token) (v : ℚ) (s : List ℚ), v < 0 →
      evalLoop F (Token.Function .Sqrt :: rest) (v :: s) =
        .error (.InvalidOperation
          "No se puede sacar raíz cuadrada de un número negativo")) ∧
    (∀ (F : FloatFns) (rest : List Token) (v : ℚ) (s : List ℚ), 0 ≤ v →
      evalLoop F (Token.Function .Sqrt :: rest) (v :: s) =
        evalLoop F rest (F.sqrt v :: s)) ∧
    (∀ (F : FloatFns) (rest : List Token) (v : ℚ) (s : List ℚ), v ≤ 0 →
      evalLoop F (Token.Function .Log :: rest) (v :: s) =
        .error (.InvalidOperation
          "No se puede tomar el logaritmo de un número no positivo")) ∧
    (∀ (F : FloatFns) (rest : List Token) (v : ℚ) (s : List ℚ), 0 < v →
      evalLoop F (Token.Function .Log :: rest) (v :: s) =
        evalLoop F rest (F.ln v :: s)) ∧
    (∀ (F : FloatFns) (rest : List Token) (v : ℚ) (s : List ℚ), v ≤ 0 →
      evalLoop F (Token.Function .Log10 :: rest) (v :: s) =
        .error (.InvalidOperation
          "No se puede tomar el logaritmo de un número no positivo")) ∧
    (∀ (F : FloatFns) (rest : List Token) (v : ℚ) (s : List ℚ), 0 < v →
      evalLoop F (Token.Function .Log10 :: rest) (v :: s) =
        evalLoop F rest (F.log10 v :: s)) := by
  refine ⟨?_, ?_, ?_, ?_, ?_, ?_⟩
  · intro F rest v s h
    have e : evalLoop F (Token.Function .Sqrt :: rest) (v :: s) =
        if v < 0 then
          .error (.InvalidOperation
            "No se puede sacar raíz cuadrada de un número negativo")
        else evalLoop F rest (F.sqrt v :: s) := rfl
    rw [e, if_pos h]
  · intro F rest v s h
    have e : evalLoop F (Token.Function .Sqrt :: rest) (v :: s) =
        if v < 0 then
          .error (.InvalidOperation
            "No se puede sacar raíz cuadrada de un número negativo")
        else evalLoop F rest (F.sqrt v :: s) := rfl
    rw [e, if_neg (not_lt.mpr h)]
  · intro F rest v s h
    have e : evalLoop F (Token.Function .Log :: rest) (v :: s) =
        if v ≤ 0 then
          .error (.InvalidOperation
            "No se puede tomar el logaritmo de un número no positivo")
        else evalLoop F rest (F.ln v :: s) := rfl
    rw [e, if_pos h]
  · intro F rest v s h
    have e : evalLoop F (Token.Function .Log :: rest) (v :: s) =
        if v ≤ 0 then
          .error (.InvalidOperation
            "No se puede tomar el logaritmo de un número no positivo")
        else evalLoop F rest (F.ln v :: s) := rfl
    rw [e, if_neg (not_le.mpr h)]
  · intro F rest v s h
    have e : evalLoop F (Token.Function .Log10 :: rest) (v :: s) =
        if v ≤ 0 then
          .error (.InvalidOperation
            "No se puede tomar el logaritmo de un número no positivo")
        else evalLoop F rest (F.log10 v :: s) := rfl
    rw [e, if_pos h]
  · intro F rest v s h
    have e : evalLoop F (Token.Function .Log10 :: rest) (v :: s) =
        if v ≤ 0 then
          .error (.InvalidOperation
            "No se puede tomar el logaritmo de un número no positivo")
        else evalLoop F rest (F.log10 v :: s) := rfl
    rw [e, if_neg (not_le.mpr h)]

/-- C8 witness: the guards and the pass-through cases at the concrete operands
`-1`, `0` and `1` under the interpretation `F0`. -/
theorem c8_domain_guards_witness :
    evalLoop F0 [Token.Function .Sqrt] [-1] =
      .error (.InvalidOperation
        "No se puede sacar raíz cuadrada de un número negativo") ∧
    evalLoop F0 [Token.Function .Sqrt] [1] = evalLoop F0 [] [F0.sqrt 1] ∧
    evalLoop F0 [Token.Function .Log] [0] =
      .error (.InvalidOperation
        "No se puede tomar el logaritmo de un número no positivo") ∧
    evalLoop F0 [Token.Function .Log] [1] = evalLoop F0 [] [F0.ln 1] ∧
    evalLoop F0 [Token.Function .Log10] [0] =
      .error (.InvalidOperation
        "No se puede tomar el logaritmo de un número no positivo") ∧
    evalLoop F0 [Token.Function .Log10] [1] = evalLoop F0 [] [F0.log10 1] :=
  ⟨c8_domain_guards.1 F0 [] (-1) [] (by norm_num),
   c8_domain_guards.2.1 F0 [] 1 [] (by norm_num),
   c8_domain_guards.2.2.1 F0 [] 0 [] (by norm_num),
   c8_domain_guards.2.2.2.1 F0 [] 1 [] (by norm_num),
   c8_domain_guards.2.2.2.2.1 F0 [] 0 [] (by norm_num),
   c8_domain_guards.2.2.2.2.2 F0 [] 1 [] (by norm_num)⟩

/-- C9: an operator token with fewer than two stacked values, and a function
token with an empty stack, fail with the corresponding `InvalidOperation`
error; at end of input a single stacked value is returned as the result, and
any other stack size fails with `InvalidOperation "Expresión inválida"`. -/
theorem c9_stack_arity :
    (∀ (F : FloatFns) (op : Operator) (rest : List Token) (stack : List ℚ),
      stack.length < 2 →
      evalLoop F (Token.Op op :: rest) stack =
        .error (.InvalidOperation "No hay suficientes operandos")) ∧
    (∀ (F : FloatFns) (f : Function) (rest : List Token),
      evalLoop F (Token.Function f :: rest) [] =
        .error (.InvalidOperation "No hay suficientes operandos para la función")) ∧
    (∀ (F : FloatFns) (v : ℚ), evalLoop F [] [v] = .ok v) ∧
    (∀ (F : FloatFns) (stack : List ℚ), stack.length ≠ 1 →
      evalLoop F [] stack = .error (.InvalidOperation "Expresión inválida")) := by
  refine ⟨?_, fun _ _ _ => rfl, fun _ _ => rfl, ?_⟩
  · intro F op rest stack h
    match stack with
    | [] => rfl
    | [x] => rfl
    | a :: b :: t => exact absurd h (by simp)
  · intro F stack h
    match stack with
    | [] => rfl
    | [x] => simp at h
    | a :: b :: t => rfl

/-- C9 witness: the arity errors at empty stacks and the single-value success,
under the interpretation `F0`. -/
theorem c9_stack_arity_witness :
    evalLoop F0 [Token.Op .Add] [] =
      .error (.InvalidOperation "No hay suficientes operandos") ∧
    evalLoop F0 [Token.Op .Add] [5] =
      .error (.InvalidOperation "No hay suficientes operandos") ∧
    evalLoop F0 [] [7] = .ok 7 ∧
    evalLoop F0 [] [] = .error (.InvalidOperation "Expresión inválida") ∧
    evalLoop F0 [] [1, 2] = .error (.InvalidOperation "Expresión inválida") :=
  ⟨c9_stack_arity.1 F0 .Add [] [] (by norm_num),
   c9_stack_arity.1 F0 .Add [] [5] (by norm_num),
   c9_stack_arity.2.2.1 F0 7,
   c9_stack_arity.2.2.2 F0 [] (by norm_num),
   c9_stack_arity.2.2.2 F0 [1, 2] (by norm_num)⟩

/-- C10: tokenizing the empty string — or any string of spaces and newlines
only — succeeds with the empty token sequence; converting the empty sequence
yields the empty sequence; and evaluating the empty sequence fails with
`InvalidOperation "Expresión inválida"` (empty stack at end of input) rather
than returning a number. -/
theorem c10_empty_input :
    parse "" = .ok [] ∧
    (∀ s : String, (∀ c ∈ s.toList, c = ' ' ∨ c = '\n') → parse s = .ok []) ∧
    expression [] = [] ∧
    (∀ F : FloatFns,
      evaluate F [] = .error (.InvalidOperation "Expresión inválida")) := by
  refine ⟨by decide, ?_, rfl, fun _ => rfl⟩
  intro s h
  have hws : ∀ c ∈ s.toList.map Char.toLower, c = ' ' ∨ c = '\n' := by
    intro c hc
    simp only [List.mem_map] at hc
    obtain ⟨d, hd, rfl⟩ := hc
    rcases h d hd with rfl | rfl
    · left; decide
    · right; decide
  have key := parseAuxN_whitespace (s.toList.map Char.toLower)
    (s.toList.map Char.toLower) (s.toList.map Char.toLower).length [] []
    le_rfl hws
  simpa [parse] using key

/-- C10 witness: a concrete whitespace-only input. -/
theorem c10_empty_input_witness : parse " \n " = .ok [] :=
  c10_empty_input.2.1 " \n " (by decide)

end GUICalc
